import Mathlib

/-!
Verification of the memdebug allocation-tracking layer.

The repository contains two implementations of the same allocation registry:
* a hash-map based one (buckets with an inline slot plus an overflow chain),
  modelled in namespace `Hashmap` below, and
* an array based one (a linear array scanned by index), modelled in
  namespace `ArrayImpl`.

Addresses (`void*`) are modelled as natural numbers with `0` playing the role
of the null pointer.  `size_t` arithmetic is modelled as natural numbers with
explicit reduction modulo `2 ^ 64`.  The real allocator is modelled as an
oracle: each wrapper receives the address the real `malloc`/`realloc` call
would return (`0` meaning allocation failure).  Fatal conditions (`mempanic`,
`OOM`) terminate the process in C; they are modelled as `Except.error`
results carrying the diagnostic data that would be printed.
-/

/-- Modulus of `size_t` arithmetic (64-bit platform model). -/
def size_t_mod : Nat := 2 ^ 64

/-- `size_t` increment (wraps modulo `2 ^ 64`). -/
def addOne (n : Nat) : Nat := (n + 1) % size_t_mod

/-- `size_t` decrement (wraps modulo `2 ^ 64`): `n - 1` in C unsigned
arithmetic. -/
def subOne (n : Nat) : Nat := (n + (size_t_mod - 1)) % size_t_mod

/-- `MEMPANIC_EXIT_STATUS` from the source (exit status for invalid-pointer
faults). -/
def MEMPANIC_EXIT_STATUS : Nat := 10

/-- `OOM_EXIT_STATUS` from the source (exit status for out-of-memory
faults). -/
def OOM_EXIT_STATUS : Nat := 11

namespace Hashmap

/-- `struct MemAlloc` of the hash-map implementation: one record per live
allocation.  `ptr` is the address (0 = NULL). -/
structure MemAlloc where
  ptr : Nat
  size : Nat
  line : Nat
  func : String
  file : String
deriving DecidableEq, Repr

/-- The record stored in an empty inline slot: C zero-initialises the static
bucket array, and `memallocs_init` sets `ptr` to NULL. -/
def emptyAlloc : MemAlloc := ⟨0, 0, 0, "", ""⟩

/-- `struct MapMember`: the inline slot of a bucket (`alloc`) together with
its overflow chain (`next`), the chain being the list of `alloc` fields of
the linked `MapMember` nodes. -/
structure Bucket where
  alloc : MemAlloc
  next : List MemAlloc
deriving DecidableEq, Repr

/-- A bucket whose inline slot is empty and whose chain is empty. -/
def emptyBucket : Bucket := ⟨emptyAlloc, []⟩

/-- `MAP_BUF_SIZE` from the source. -/
def MAP_BUF_SIZE : Nat := 100000

/-- `log_base_2` from the source.  The C function recurses on `num / 2` with
base case `num == 1`; it diverges on 0, a case it is never called with (the
only call site passes `1 + sizeof(void*)`).  The extra first argument is
recursion fuel making the definition structural; `log_base_2` below supplies
enough fuel for every positive input. -/
def log_base_2_go : Nat → Nat → Nat
  | 0, _ => 0
  | fuel + 1, num => if num ≤ 1 then 0 else 1 + log_base_2_go fuel (num / 2)

/-- `log_base_2(num)`: for positive `num` this is the C function's value. -/
def log_base_2 (num : Nat) : Nat := log_base_2_go num num

/-- `sizeof(void*)` on the modelled 64-bit platform. -/
def sizeof_voidp : Nat := 8

/-- `ptr_hash` from the source: xor of a right-shifted and a left-shifted
copy of the address bits, reduced modulo `MAP_BUF_SIZE`.  The C left shift
happens in `size_t`, hence the reduction modulo `2 ^ 64`. -/
def ptr_hash (val : Nat) : Nat :=
  let logsize := log_base_2 (1 + sizeof_voidp)
  let shifted := val >>> logsize
  let other := (val <<< (8 - logsize)) % size_t_mod
  let xed := shifted ^^^ other
  xed % MAP_BUF_SIZE

/-- The global tracking state: the bucket array `allocs` (indices beyond
`MAP_BUF_SIZE` are never accessed), the `memallocs_initialized` flag and the
`num_allocs` counter. -/
structure MState where
  allocs : Nat → Bucket
  memallocs_initialized : Bool
  num_allocs : Nat

/-- The state at program start: the static bucket array is zero-initialised,
the flag is false, the counter is 0. -/
def initState : MState := ⟨fun _ => emptyBucket, false, 0⟩

/-- `memallocs_init` as performed by every map method when the flag is not
yet set: clear every bucket and set the flag. -/
def ensureInit (s : MState) : MState :=
  if s.memallocs_initialized then s else ⟨fun _ => emptyBucket, true, s.num_allocs⟩

/-- Faults that abort the process, carrying the data the diagnostic would
print.  `nullDeref` models the undefined behaviour of storing through a null
`malloc` result (no diagnostic, no controlled exit).  `oomDeadlock` models
the out-of-memory path of `memdebug_realloc`: `OOM` is entered while
`alloc_mutex` is still held, the out-of-memory header (carried here) is
printed, and then `print_heap` re-acquires the same non-recursive mutex —
deadlock/undefined behaviour, so no heap dump is printed and `exit` is
never reached. -/
inductive Fault where
  | mempanic (badptr : Nat) (msg : String) (line : Nat) (func file : String)
  | oom (line : Nat) (func file : String) (num_bytes : Nat) (dump : List MemAlloc)
  | oomDeadlock (line : Nat) (func file : String) (num_bytes : Nat)
  | nullDeref
deriving DecidableEq, Repr

/-- The exit status of each fault class (`none` for a path that never
reaches `exit`). -/
def exitStatus : Fault → Option Nat
  | .mempanic _ _ _ _ _ => some MEMPANIC_EXIT_STATUS
  | .oom _ _ _ _ _ => some OOM_EXIT_STATUS
  | .oomDeadlock _ _ _ _ => none
  | .nullDeref => none

/-- `alloc_add` from the source.  Increments `num_allocs`, then stores the
record in the inline slot if it is empty, otherwise appends a node to the end
of the overflow chain.  The chain node is obtained from the real (unwrapped)
`malloc`, whose success is the oracle `nodeAllocOk`; the source does not
check this result before storing through it, so a null result is a null
dereference. -/
def alloc_add (s : MState) (a : MemAlloc) (nodeAllocOk : Bool) : Except Fault MState :=
  let s := ensureInit s
  let n := addOne s.num_allocs
  let h := ptr_hash a.ptr
  let b := s.allocs h
  if b.alloc.ptr = 0 then
    .ok ⟨fun i => if i = h then ⟨a, b.next⟩ else s.allocs i, true, n⟩
  else if nodeAllocOk then
    .ok ⟨fun i => if i = h then ⟨b.alloc, b.next ++ [a]⟩ else s.allocs i, true, n⟩
  else
    .error .nullDeref

/-- The chain part of `alloc_remove`'s traversal: unlink the first node whose
`ptr` equals `p`, reporting whether one was found. -/
def removeChain (p : Nat) : List MemAlloc → Bool × List MemAlloc
  | [] => (false, [])
  | a :: rest =>
    if a.ptr = p then (true, rest)
    else
      let r := removeChain p rest
      (r.1, a :: r.2)

/-- One bucket's part of `alloc_remove`: if the inline slot matches it is
replaced by the head of the chain (if any) or cleared (`ptr` set to NULL,
chain pointer set to NULL); otherwise the chain is searched and the matching
node unlinked. -/
def removeBucket (b : Bucket) (p : Nat) : Bool × Bucket :=
  if b.alloc.ptr = p then
    match b.next with
    | [] => (true, ⟨{ b.alloc with ptr := 0 }, []⟩)
    | c :: rest => (true, ⟨c, rest⟩)
  else
    let r := removeChain p b.next
    (r.1, ⟨b.alloc, r.2⟩)

/-- `alloc_remove` from the source: search the bucket `ptr_hash p` for `p`;
on a match remove it and decrement `num_allocs`, returning `true`; otherwise
return `false` with the state unchanged. -/
def alloc_remove (s : MState) (p : Nat) : Bool × MState :=
  let s := ensureInit s
  let h := ptr_hash p
  let r := removeBucket (s.allocs h) p
  if r.1 then
    (true, ⟨fun i => if i = h then r.2 else s.allocs i, true, subOne s.num_allocs⟩)
  else
    (false, s)

/-- The records one bucket contributes to `print_heap`'s output: the loop
prints the current node while its `ptr` is non-null, starting at the inline
slot. -/
def bucketDump (b : Bucket) : List MemAlloc :=
  (b.alloc :: b.next).takeWhile (fun a => a.ptr != 0)

/-- `print_heap` from the source, as the list of records it prints: all
buckets in index order, each bucket's inline slot then its chain. -/
def print_heap (s : MState) : List MemAlloc :=
  let s := ensureInit s
  (List.range MAP_BUF_SIZE).flatMap (fun i => bucketDump (s.allocs i))

/-- `memdebug_malloc` from the source.  `ret` is the address returned by the
real `malloc` (0 = failure).  On failure: `OOM`, which prints the heap dump
and exits.  On success the record is pushed via `alloc_add`. -/
def memdebug_malloc (s : MState) (n line : Nat) (func file : String)
    (ret : Nat) (nodeAllocOk : Bool) : Except Fault (Nat × MState) :=
  if ret = 0 then .error (.oom line func file n (print_heap s))
  else
    match alloc_add s ⟨ret, n, line, func, file⟩ nodeAllocOk with
    | .ok s1 => .ok (ret, s1)
    | .error f => .error f

/-- `memdebug_realloc` from the source.  Removes the old record first; a
non-null pointer that was not found is an invalid-pointer panic.  Then the
real `realloc` result `ret` is checked: 0 enters `OOM`, but unlike the
`memdebug_malloc` path this happens with `alloc_mutex` already held, so
`print_heap`'s lock acquisition deadlocks before any dump or `exit`
(`Fault.oomDeadlock`).  On success a fresh record is added. -/
def memdebug_realloc (s : MState) (p n line : Nat) (func file : String)
    (ret : Nat) (nodeAllocOk : Bool) : Except Fault (Nat × MState) :=
  let r := alloc_remove s p
  if p ≠ 0 ∧ r.1 = false then
    .error (.mempanic p "Tried to realloc() an invalid pointer." line func file)
  else if ret = 0 then .error (.oomDeadlock line func file n)
  else
    match alloc_add r.2 ⟨ret, n, line, func, file⟩ nodeAllocOk with
    | .ok s1 => .ok (ret, s1)
    | .error f => .error f

/-- `memdebug_free` from the source.  Removes the record; a non-null pointer
that was not found is an invalid-pointer panic. -/
def memdebug_free (s : MState) (p line : Nat) (func file : String) :
    Except Fault MState :=
  let r := alloc_remove s p
  if p ≠ 0 ∧ r.1 = false then
    .error (.mempanic p "Tried to free() an invalid pointer." line func file)
  else .ok r.2

/-- The addresses recorded in one bucket: the inline slot when occupied,
then the chain. -/
def bucketAddrs (b : Bucket) : List Nat :=
  (if b.alloc.ptr = 0 then [] else [b.alloc.ptr]) ++ b.next.map (fun a => a.ptr)

/-- The addresses recorded in bucket `i` of the state. -/
def addrsAt (s : MState) (i : Nat) : List Nat := bucketAddrs (s.allocs i)

/-- Observer: address `p` has a record in its hash bucket (for well-formed
states this is exactly "a live record for `p` exists"). -/
def tracked (s : MState) (p : Nat) : Prop := p ∈ addrsAt s (ptr_hash p)

instance (s : MState) (p : Nat) : Decidable (tracked s p) := by
  unfold tracked; infer_instance

/-- Observer: the record stored for address `p`, found the way the registry
searches: inline slot first, then the chain. -/
def lookupRecord (s : MState) (p : Nat) : Option MemAlloc :=
  let b := s.allocs (ptr_hash p)
  if b.alloc.ptr = p then some b.alloc else b.next.find? (fun a => a.ptr == p)

/-- Observer: the registry's `live_count()` is the `num_allocs` counter. -/
def live_count (s : MState) : Nat := s.num_allocs

end Hashmap

namespace Hashmap

/-- Driver events for the façade: each carries the call-site data and the
address the real allocator returns for the call (`ret`). -/
inductive Ev where
  | mallocE (n ret line : Nat) (func file : String)
  | reallocE (p n ret line : Nat) (func file : String)
  | freeE (p line : Nat) (func file : String)
deriving DecidableEq, Repr

/-- One checked step of a misuse-free, allocator-sane trace: releases and
resizes of non-null addresses must target tracked addresses, real-allocator
results are non-null and not currently live (for `realloc`, not live after
the old record's removal, so reusing the resized address is allowed), and
the registry's internal chain-node allocations succeed.  A step whose
conditions fail, or whose operation faults, yields `none`. -/
def stepChecked (s : MState) : Ev → Option MState
  | .mallocE n ret line func file =>
    if ret ≠ 0 ∧ ¬ tracked s ret then
      match memdebug_malloc s n line func file ret true with
      | .ok (_, s1) => some s1
      | .error _ => none
    else none
  | .reallocE p n ret line func file =>
    if (p = 0 ∨ tracked s p) ∧ ret ≠ 0 ∧ ¬ tracked (alloc_remove s p).2 ret then
      match memdebug_realloc s p n line func file ret true with
      | .ok (_, s1) => some s1
      | .error _ => none
    else none
  | .freeE p line func file =>
    if p = 0 ∨ tracked s p then
      match memdebug_free s p line func file with
      | .ok s1 => some s1
      | .error _ => none
    else none

/-- Run a whole trace of checked steps. -/
def runChecked (evs : List Ev) (s : MState) : Option MState :=
  match evs with
  | [] => some s
  | e :: rest =>
    match stepChecked s e with
    | some s1 => runChecked rest s1
    | none => none

/-- The number of allocate operations in a trace, a resize of a null address
counting as an allocate. -/
def countAllocs (evs : List Ev) : Nat :=
  (evs.filter (fun e =>
    match e with
    | .mallocE _ _ _ _ _ => true
    | .reallocE p _ _ _ _ _ => p == 0
    | .freeE _ _ _ _ => false)).length

/-- The number of release operations of a non-null address in a trace
(releases of null release nothing). -/
def countReleases (evs : List Ev) : Nat :=
  (evs.filter (fun e =>
    match e with
    | .freeE p _ _ _ => p != 0
    | _ => false)).length

end Hashmap

namespace ArrayImpl

/-- `struct MemAlloc` of the array implementation (no `func` field). -/
structure MemAlloc where
  ptr : Nat
  size : Nat
  line : Nat
  file : String
deriving DecidableEq, Repr

/-- The tracking state of the array implementation: the backing array
`allocs` (as a total function; only indices below `num_allocs` are the live
prefix) and the `num_allocs` counter. -/
structure ArrState where
  allocs : Nat → MemAlloc
  num_allocs : Nat

/-- `MEM_FAIL_TO_FIND` from the source: the not-found sentinel of
`alloc_find_index`. -/
def MEM_FAIL_TO_FIND : Nat := 4294967295

/-- The loop of `alloc_find_index`: scan indices upward from `i` while
`i < num_allocs`, returning the first index whose record's `ptr` matches.
`fuel` is `num_allocs - i`, making the recursion structural. -/
def alloc_find_index_go (s : ArrState) (p : Nat) : Nat → Nat → Nat
  | 0, _ => MEM_FAIL_TO_FIND
  | fuel + 1, i => if (s.allocs i).ptr = p then i else alloc_find_index_go s p fuel (i + 1)

/-- `alloc_find_index` from the source: the smallest index below
`num_allocs` holding `p`, else `MEM_FAIL_TO_FIND`. -/
def alloc_find_index (s : ArrState) (p : Nat) : Nat :=
  alloc_find_index_go s p s.num_allocs 0

/-- `alloc_remove(index)` from the source: decrement `num_allocs` (unsigned,
so 0 wraps around), then shift every element after `index` one slot left.
When `index` is at or beyond the new count (as happens when it is the
`MEM_FAIL_TO_FIND` sentinel) the loop body never runs, but the decrement has
already happened. -/
def alloc_remove (s : ArrState) (index : Nat) : ArrState :=
  let n := subOne s.num_allocs
  ⟨fun j => if index ≤ j ∧ j < n then s.allocs (j + 1) else s.allocs j, n⟩

/-- `alloc_update` from the source: overwrite the entry at `index`. -/
def alloc_update (s : ArrState) (index : Nat) (a : MemAlloc) : ArrState :=
  ⟨fun j => if j = index then a else s.allocs j, s.num_allocs⟩

/-- Faults of the array implementation (its `mempanic`/`OOM` take no
function name). -/
inductive Fault where
  | mempanic (badptr : Nat) (msg : String) (line : Nat) (file : String)
  | oom (line : Nat) (file : String) (num_bytes : Nat)
deriving DecidableEq, Repr

/-- The exit status of each fault class of the array implementation. -/
def exitStatus : Fault → Nat
  | .mempanic _ _ _ _ => MEMPANIC_EXIT_STATUS
  | .oom _ _ _ => OOM_EXIT_STATUS

/-- `memdebug_free` of the array implementation: look the pointer up; a
non-null pointer that is not found is an invalid-pointer panic; otherwise
the real `free` runs and `alloc_remove` is called with the found index —
which is the `MEM_FAIL_TO_FIND` sentinel when the pointer was null. -/
def memdebug_free (s : ArrState) (p line : Nat) (file : String) :
    Except Fault ArrState :=
  let idx := alloc_find_index s p
  if p ≠ 0 ∧ idx = MEM_FAIL_TO_FIND then
    .error (.mempanic p "Tried to free() an invalid pointer." line file)
  else .ok (alloc_remove s idx)

/-- `memdebug_realloc` of the array implementation: look the pointer up; a
non-null pointer that is not found is an invalid-pointer panic; a null real
`realloc` result (`ret = 0`) is an OOM fault; otherwise the record at the
found index is overwritten — when the pointer was null that index is the
`MEM_FAIL_TO_FIND` sentinel, an out-of-bounds store. -/
def memdebug_realloc (s : ArrState) (p n line : Nat) (file : String)
    (ret : Nat) : Except Fault (Nat × ArrState) :=
  let idx := alloc_find_index s p
  if p ≠ 0 ∧ idx = MEM_FAIL_TO_FIND then
    .error (.mempanic p "Tried to realloc() an invalid pointer." line file)
  else if ret = 0 then .error (.oom line file n)
  else .ok (ret, alloc_update s idx ⟨ret, n, line, file⟩)

end ArrayImpl

/-- Equality of `Except` results is decidable when both components are;
used to evaluate the wrappers on concrete inputs. -/
instance {ε α : Type} [DecidableEq ε] [DecidableEq α] : DecidableEq (Except ε α) := fun x y =>
  match x, y with
  | .error e, .error f =>
    if h : e = f then isTrue (h ▸ rfl) else isFalse (fun hh => h (Except.error.inj hh))
  | .ok a, .ok b =>
    if h : a = b then isTrue (h ▸ rfl) else isFalse (fun hh => h (Except.ok.inj hh))
  | .error _, .ok _ => isFalse (fun hh => Except.noConfusion hh)
  | .ok _, .error _ => isFalse (fun hh => Except.noConfusion hh)

/-- C1: the live-count bookkeeping fails on misuse-free sequences that
contain a release of null.  After `malloc` returning address 8 followed by
`free(NULL)` — one successful allocate, zero successful releases — the
registry's counter is 0 instead of 1, even though the record for address 8
is still tracked: `alloc_remove(NULL)` matches the empty inline slot of
bucket 0 and decrements `num_allocs`. -/
theorem c1_free_null_count_bug :
    Hashmap.countAllocs
        [.mallocE 5 8 1 "f" "t.c", .freeE 0 2 "f" "t.c"] = 1 ∧
    Hashmap.countReleases
        [.mallocE 5 8 1 "f" "t.c", .freeE 0 2 "f" "t.c"] = 0 ∧
    (Hashmap.runChecked [.mallocE 5 8 1 "f" "t.c", .freeE 0 2 "f" "t.c"]
        Hashmap.initState).map Hashmap.live_count = some 0 ∧
    (Hashmap.runChecked [.mallocE 5 8 1 "f" "t.c", .freeE 0 2 "f" "t.c"]
        Hashmap.initState).map (fun s => decide (Hashmap.tracked s 8)) = some true := by
  decide

/-- C2: releasing a null pointer is not a no-op in the array implementation.
On a registry tracking exactly one record (address 7 at index 0),
`memdebug_free(NULL)` does not fault, but `alloc_remove` is called with the
`MEM_FAIL_TO_FIND` sentinel and decrements `num_allocs` from 1 to 0, so the
record for address 7 is no longer found afterwards. -/
theorem c2_free_null_array_bug :
    ArrayImpl.alloc_find_index
        ⟨fun j => if j = 0 then ⟨7, 5, 3, "t.c"⟩ else ⟨0, 0, 0, ""⟩, 1⟩ 7 = 0 ∧
    (ArrayImpl.memdebug_free
        ⟨fun j => if j = 0 then ⟨7, 5, 3, "t.c"⟩ else ⟨0, 0, 0, ""⟩, 1⟩
        0 20 "t.c").map
      (fun s => (s.num_allocs, ArrayImpl.alloc_find_index s 7)) =
      .ok (0, ArrayImpl.MEM_FAIL_TO_FIND) := by
  decide

/-- C5: `realloc(NULL, n)` does not behave like `allocate(n)` in the
hash-map implementation.  On a fresh registry, `memdebug_realloc(NULL, 10)`
with the real allocator returning address 42 registers the record but leaves
`live_count` at 0 instead of increasing it to 1: the preceding
`alloc_remove(NULL)` matched bucket 0's empty inline slot and decremented
the counter. -/
theorem c5_realloc_null_bug :
    (Hashmap.memdebug_realloc Hashmap.initState 0 10 1 "f" "t.c" 42 true).map
      (fun r => (r.1, Hashmap.live_count r.2, decide (Hashmap.tracked r.2 42))) =
      .ok (42, 0, true) := by
  decide

/-- C9: an out-of-memory result for the registry's own chain-node allocation
is not raised as an OOM fault.  Addresses 5140 and 8213 hash to the same
bucket; after tracking 5140, adding a record for 8213 while the internal
`malloc` returns null makes `alloc_add` store through the null pointer
(undefined behaviour) instead of reaching `OOM` and its exit status. -/
theorem c9_chain_alloc_null_deref :
    ((Hashmap.memdebug_malloc Hashmap.initState 5 1 "f" "t.c" 5140 true).bind
      (fun r => Hashmap.memdebug_malloc r.2 6 2 "f" "t.c" 8213 false)).map
        (fun r => r.1) =
      .error .nullDeref ∧
    Hashmap.exitStatus .nullDeref ≠ some OOM_EXIT_STATUS ∧
    Hashmap.ptr_hash 5140 = Hashmap.ptr_hash 8213 := by
  decide

/-- C7 counterexample: on the pristine registry, `alloc_remove` of the null
address returns `true` although no record with address 0 exists, and
decrements `num_allocs` (wrapping the counter to `2 ^ 64 - 1`): the empty
inline slot of bucket 0, whose `ptr` field is the NULL sentinel, is treated
as a matching record. -/
theorem c7_remove_null_counterexample :
    (Hashmap.alloc_remove Hashmap.initState 0).1 = true ∧
    ¬ Hashmap.tracked Hashmap.initState 0 ∧
    (Hashmap.alloc_remove Hashmap.initState 0).2.num_allocs = size_t_mod - 1 := by
  decide

namespace Hashmap

/-- The well-formedness of one bucket: every recorded address is non-null
and hashes to the bucket's index, and an empty inline slot has an empty
chain. -/
def bucketWF (i : Nat) (b : Bucket) : Prop :=
  (∀ q ∈ bucketAddrs b, q ≠ 0 ∧ ptr_hash q = i) ∧ (b.alloc.ptr = 0 → b.next = [])

/-- The registry invariant: every bucket is well formed, no bucket records
an address twice, the lazy initialisation has happened, and the counter is a
`size_t` value. -/
def Inv (s : MState) : Prop :=
  (∀ i, bucketWF i (s.allocs i)) ∧ (∀ i, (addrsAt s i).Nodup) ∧
    s.memallocs_initialized = true ∧ s.num_allocs < size_t_mod

theorem bucketAddrs_emptyBucket : bucketAddrs emptyBucket = [] := rfl

theorem ensureInit_of_initialized {s : MState} (h : s.memallocs_initialized = true) :
    ensureInit s = s := by
  simp [ensureInit, h]

theorem Inv_ensureInit_initState : Inv (ensureInit initState) := by
  refine ⟨fun i => ⟨fun q hq => ?_, fun _ => rfl⟩, fun i => ?_, rfl,
    by norm_num [ensureInit, initState, size_t_mod]⟩
  · simp [ensureInit, initState, bucketAddrs, emptyBucket, emptyAlloc] at hq
  · simp [ensureInit, initState, addrsAt, bucketAddrs, emptyBucket, emptyAlloc]

theorem ptr_hash_lt (v : Nat) : ptr_hash v < MAP_BUF_SIZE := by
  have : MAP_BUF_SIZE ≠ 0 := by norm_num [MAP_BUF_SIZE]
  exact Nat.mod_lt _ (Nat.pos_of_ne_zero this)

theorem addOne_lt (n : Nat) : addOne n < size_t_mod := by
  have : size_t_mod ≠ 0 := by norm_num [size_t_mod]
  exact Nat.mod_lt _ (Nat.pos_of_ne_zero this)

theorem subOne_lt (n : Nat) : subOne n < size_t_mod := by
  have : size_t_mod ≠ 0 := by norm_num [size_t_mod]
  exact Nat.mod_lt _ (Nat.pos_of_ne_zero this)

theorem addOne_subOne {n : Nat} (h : n < size_t_mod) : addOne (subOne n) = n := by
  have hm : size_t_mod = 2 ^ 64 := rfl
  rcases n with _ | m
  · simp [addOne, subOne, hm]
  · unfold addOne subOne
    rw [hm] at h ⊢
    omega

theorem removeChain_found_iff (p : Nat) (c : List MemAlloc) :
    (removeChain p c).1 = true ↔ p ∈ c.map (fun a => a.ptr) := by
  induction c with
  | nil => simp [removeChain]
  | cons a rest ih =>
    by_cases h : a.ptr = p
    · simp [removeChain, h]
    · simp only [removeChain, if_neg h, List.map_cons, List.mem_cons]
      rw [ih]
      constructor
      · exact fun hm => Or.inr hm
      · rintro (hm | hm)
        · exact absurd hm.symm h
        · exact hm

theorem removeChain_not_found {p : Nat} {c : List MemAlloc}
    (h : p ∉ c.map (fun a => a.ptr)) : removeChain p c = (false, c) := by
  induction c with
  | nil => rfl
  | cons a rest ih =>
    simp only [List.map_cons, List.mem_cons] at h
    push_neg at h
    have ha : a.ptr ≠ p := fun hh => h.1 hh.symm
    simp [removeChain, if_neg ha, ih h.2]

theorem removeChain_map_erase {p : Nat} {c : List MemAlloc}
    (h : p ∈ c.map (fun a => a.ptr)) :
    ((removeChain p c).2).map (fun a => a.ptr) = (c.map (fun a => a.ptr)).erase p := by
  induction c with
  | nil => simp at h
  | cons a rest ih =>
    by_cases ha : a.ptr = p
    · simp [removeChain, ha]
    · have hr : p ∈ rest.map (fun a => a.ptr) := by
        simp only [List.map_cons, List.mem_cons] at h
        rcases h with h | h
        · exact absurd h.symm ha
        · exact h
      have hne : (p == a.ptr) = false := by
        simp [BEq.beq]
        exact fun hh => ha hh.symm
      simp only [removeChain, if_neg ha, List.map_cons, List.erase_cons]
      rw [if_neg (by simpa using fun hh : a.ptr = p => ha hh)]
      simp [ih hr]

theorem removeChain_mem_sub {p : Nat} {c : List MemAlloc} {a : MemAlloc}
    (h : a ∈ (removeChain p c).2) : a ∈ c := by
  induction c with
  | nil => simpa [removeChain] using h
  | cons x rest ih =>
    by_cases hx : x.ptr = p
    · simp only [removeChain, if_pos hx] at h
      exact List.mem_cons_of_mem _ h
    · simp only [removeChain, if_neg hx, List.mem_cons] at h
      rcases h with h | h
      · exact h ▸ List.mem_cons_self _ _
      · exact List.mem_cons_of_mem _ (ih h)

theorem removeChain_find_ne {p q : Nat} (hq : q ≠ p) (c : List MemAlloc) :
    ((removeChain p c).2).find? (fun a => a.ptr == q) = c.find? (fun a => a.ptr == q) := by
  induction c with
  | nil => rfl
  | cons a rest ih =>
    by_cases ha : a.ptr = p
    · have hf : (p == q) = false := by simpa using Ne.symm hq
      simp [removeChain, ha, List.find?, hf]
    · by_cases haq : a.ptr = q
      · simp [removeChain, ha, List.find?, haq, hq]
      · have hf : (a.ptr == q) = false := by simpa using haq
        simp [removeChain, ha, List.find?, hf, ih]

/-- Bucket-level lookup, the way the registry searches: inline slot first,
then the chain. -/
def bucketFind (b : Bucket) (q : Nat) : Option MemAlloc :=
  if b.alloc.ptr = q then some b.alloc else b.next.find? (fun a => a.ptr == q)

theorem lookupRecord_eq_bucketFind (s : MState) (q : Nat) :
    lookupRecord s q = bucketFind (s.allocs (ptr_hash q)) q := rfl

theorem mem_bucketAddrs {b : Bucket} {q : Nat} :
    q ∈ bucketAddrs b ↔
      (b.alloc.ptr ≠ 0 ∧ q = b.alloc.ptr) ∨ q ∈ b.next.map (fun a => a.ptr) := by
  unfold bucketAddrs
  rw [List.mem_append]
  by_cases h0 : b.alloc.ptr = 0
  · simp [h0]
  · simp only [if_neg h0, List.mem_singleton]
    tauto

theorem removeBucket_found_iff {b : Bucket} {p : Nat} (hp : p ≠ 0) :
    (removeBucket b p).1 = true ↔ p ∈ bucketAddrs b := by
  rw [mem_bucketAddrs]
  by_cases hb : b.alloc.ptr = p
  · have hb0 : b.alloc.ptr ≠ 0 := by rw [hb]; exact hp
    have hL : (removeBucket b p).1 = true := by
      cases hn : b.next with
      | nil => simp [removeBucket, hb, hn]
      | cons c rest => simp [removeBucket, hb, hn]
    constructor
    · intro _
      exact Or.inl ⟨hb0, hb.symm⟩
    · intro _
      exact hL
  · have hL : (removeBucket b p).1 = (removeChain p b.next).1 := by
      simp [removeBucket, hb]
    rw [hL, removeChain_found_iff]
    constructor
    · intro h
      exact Or.inr h
    · rintro (⟨h0, hqe⟩ | h)
      · exact absurd hqe.symm hb
      · exact h

theorem removeBucket_not_found {b : Bucket} {p : Nat} (hp : p ≠ 0)
    (h : p ∉ bucketAddrs b) : removeBucket b p = (false, b) := by
  have hb : b.alloc.ptr ≠ p := by
    intro hh
    apply h
    apply mem_bucketAddrs.mpr
    exact Or.inl ⟨by rw [hh]; exact hp, hh.symm⟩
  have hc : p ∉ b.next.map (fun a => a.ptr) := by
    intro hm
    exact h (mem_bucketAddrs.mpr (Or.inr hm))
  simp [removeBucket, hb, removeChain_not_found hc]

theorem removeBucket_addrs {b : Bucket} {p : Nat} (hp : p ≠ 0)
    (hchain : ∀ a ∈ b.next, a.ptr ≠ 0) (hfound : p ∈ bucketAddrs b) :
    bucketAddrs (removeBucket b p).2 = (bucketAddrs b).erase p := by
  by_cases hb : b.alloc.ptr = p
  · have hb0 : b.alloc.ptr ≠ 0 := by rw [hb]; exact hp
    have haddr : bucketAddrs b = p :: b.next.map (fun a => a.ptr) := by
      unfold bucketAddrs
      rw [if_neg hb0, hb]
      rfl
    cases hn : b.next with
    | nil =>
      have hres : (removeBucket b p).2 = ⟨{ b.alloc with ptr := 0 }, []⟩ := by
        simp [removeBucket, hb, hn]
      rw [hres, haddr, hn]
      simp [bucketAddrs]
    | cons c rest =>
      have hc0 : c.ptr ≠ 0 := hchain c (by rw [hn]; exact List.mem_cons_self _ _)
      have hres : (removeBucket b p).2 = ⟨c, rest⟩ := by
        simp [removeBucket, hb, hn]
      rw [hres, haddr, hn]
      unfold bucketAddrs
      rw [if_neg hc0]
      simp [List.erase_cons_head]
  · have hcm : p ∈ b.next.map (fun a => a.ptr) := by
      rcases mem_bucketAddrs.mp hfound with ⟨h0, hqe⟩ | h
      · exact absurd hqe.symm hb
      · exact h
    have hres : (removeBucket b p).2 = ⟨b.alloc, (removeChain p b.next).2⟩ := by
      simp [removeBucket, hb]
    rw [hres]
    unfold bucketAddrs
    have hinl : p ∉ (if b.alloc.ptr = 0 then ([] : List Nat) else [b.alloc.ptr]) := by
      by_cases h0 : b.alloc.ptr = 0
      · simp [h0]
      · rw [if_neg h0]
        simp only [List.mem_singleton]
        exact fun hh => hb hh.symm
    rw [List.erase_append_right _ hinl, removeChain_map_erase hcm]

theorem removeBucket_wf {i : Nat} {b : Bucket} {p : Nat} (hWF : bucketWF i b)
    (hp : p ≠ 0) : bucketWF i (removeBucket b p).2 := by
  obtain ⟨h1, h2⟩ := hWF
  by_cases hb : b.alloc.ptr = p
  · cases hn : b.next with
    | nil =>
      have hres : (removeBucket b p).2 = ⟨{ b.alloc with ptr := 0 }, []⟩ := by
        simp [removeBucket, hb, hn]
      rw [hres]
      constructor
      · intro q hq
        simp [bucketAddrs] at hq
      · intro _
        rfl
    | cons c rest =>
      have hres : (removeBucket b p).2 = ⟨c, rest⟩ := by
        simp [removeBucket, hb, hn]
      have hcmem : c.ptr ∈ bucketAddrs b := by
        apply mem_bucketAddrs.mpr
        right
        rw [hn]
        exact List.mem_map.mpr ⟨c, List.mem_cons_self _ _, rfl⟩
      rw [hres]
      constructor
      · intro q hq
        refine h1 q ?_
        rcases mem_bucketAddrs.mp hq with ⟨hc0, hqe⟩ | hmem
        · exact hqe ▸ hcmem
        · apply mem_bucketAddrs.mpr
          right
          rw [hn]
          rcases List.mem_map.mp hmem with ⟨x, hx, hxq⟩
          exact List.mem_map.mpr ⟨x, List.mem_cons_of_mem _ hx, hxq⟩
      · intro hc0
        exact absurd hc0 (h1 _ hcmem).1
  · have hres : (removeBucket b p).2 = ⟨b.alloc, (removeChain p b.next).2⟩ := by
      simp [removeBucket, hb]
    rw [hres]
    constructor
    · intro q hq
      refine h1 q ?_
      rcases mem_bucketAddrs.mp hq with ⟨h0, hqe⟩ | hmem
      · exact mem_bucketAddrs.mpr (Or.inl ⟨h0, hqe⟩)
      · rcases List.mem_map.mp hmem with ⟨x, hx, hxq⟩
        exact mem_bucketAddrs.mpr (Or.inr (List.mem_map.mpr ⟨x, removeChain_mem_sub hx, hxq⟩))
    · intro h0
      have hnil : b.next = [] := h2 h0
      rw [hnil]
      rfl

theorem removeBucket_find_ne {b : Bucket} {p q : Nat} (hq0 : q ≠ 0) (hqp : q ≠ p) :
    bucketFind (removeBucket b p).2 q = bucketFind b q := by
  by_cases hb : b.alloc.ptr = p
  · have hbq : b.alloc.ptr ≠ q := by rw [hb]; exact Ne.symm hqp
    cases hn : b.next with
    | nil =>
      have hres : (removeBucket b p).2 = ⟨{ b.alloc with ptr := 0 }, []⟩ := by
        simp [removeBucket, hb, hn]
      rw [hres]
      unfold bucketFind
      rw [if_neg hbq, hn]
      exact if_neg (Ne.symm hq0)
    | cons c rest =>
      have hres : (removeBucket b p).2 = ⟨c, rest⟩ := by
        simp [removeBucket, hb, hn]
      rw [hres]
      unfold bucketFind
      rw [if_neg hbq, hn]
      by_cases hcq : c.ptr = q
      · simp [List.find?, hcq]
      · have hf : (c.ptr == q) = false := by simpa using hcq
        simp [List.find?, hcq, hf]
  · have hres : (removeBucket b p).2 = ⟨b.alloc, (removeChain p b.next).2⟩ := by
      simp [removeBucket, hb]
    rw [hres]
    unfold bucketFind
    by_cases hbq : b.alloc.ptr = q
    · rw [if_pos hbq, if_pos hbq]
    · rw [if_neg hbq, if_neg hbq, removeChain_find_ne hqp]

theorem addrsAt_eq (s : MState) (i : Nat) : addrsAt s i = bucketAddrs (s.allocs i) := rfl

theorem tracked_iff (s : MState) (q : Nat) :
    tracked s q ↔ q ∈ bucketAddrs (s.allocs (ptr_hash q)) := Iff.rfl

theorem alloc_remove_not_tracked {s : MState} {p : Nat}
    (hinit : s.memallocs_initialized = true) (hp : p ≠ 0) (hnt : ¬ tracked s p) :
    alloc_remove s p = (false, s) := by
  have h1 : removeBucket (s.allocs (ptr_hash p)) p = (false, s.allocs (ptr_hash p)) :=
    removeBucket_not_found hp hnt
  simp [alloc_remove, ensureInit_of_initialized hinit, h1]

theorem alloc_remove_spec {s : MState} {p : Nat} (hInv : Inv s) (hp : p ≠ 0)
    (ht : tracked s p) :
    (alloc_remove s p).1 = true ∧
    (alloc_remove s p).2.num_allocs = subOne s.num_allocs ∧
    addrsAt (alloc_remove s p).2 (ptr_hash p) = (addrsAt s (ptr_hash p)).erase p ∧
    (∀ i, i ≠ ptr_hash p → (alloc_remove s p).2.allocs i = s.allocs i) ∧
    Inv (alloc_remove s p).2 ∧
    ¬ tracked (alloc_remove s p).2 p ∧
    (∀ q, q ≠ p → (tracked (alloc_remove s p).2 q ↔ tracked s q)) ∧
    (∀ q, q ≠ p → q ≠ 0 → lookupRecord (alloc_remove s p).2 q = lookupRecord s q) := by
  obtain ⟨hWF, hND, hinit, hnum⟩ := hInv
  have hEns : ensureInit s = s := ensureInit_of_initialized hinit
  have hchain : ∀ a ∈ (s.allocs (ptr_hash p)).next, a.ptr ≠ 0 := by
    intro a ha
    refine ((hWF (ptr_hash p)).1 a.ptr ?_).1
    exact mem_bucketAddrs.mpr (Or.inr (List.mem_map.mpr ⟨a, ha, rfl⟩))
  have hfound : (removeBucket (s.allocs (ptr_hash p)) p).1 = true :=
    (removeBucket_found_iff hp).mpr ht
  have hstate : alloc_remove s p =
      (true, ⟨fun i => if i = ptr_hash p then (removeBucket (s.allocs (ptr_hash p)) p).2
                       else s.allocs i, true, subOne s.num_allocs⟩) := by
    simp [alloc_remove, hEns, hfound]
  have haddr : addrsAt (alloc_remove s p).2 (ptr_hash p) = (addrsAt s (ptr_hash p)).erase p := by
    rw [hstate, addrsAt_eq]
    simp only [if_pos rfl]
    exact removeBucket_addrs hp hchain ht
  have hother : ∀ i, i ≠ ptr_hash p → (alloc_remove s p).2.allocs i = s.allocs i := by
    intro i hi
    rw [hstate]
    simp [hi]
  refine ⟨by rw [hstate], by rw [hstate], haddr, hother, ?_, ?_, ?_, ?_⟩
  · refine ⟨fun i => ?_, fun i => ?_, by rw [hstate], by rw [hstate]; exact subOne_lt _⟩
    · by_cases hi : i = ptr_hash p
      · have hall : (alloc_remove s p).2.allocs i =
            (removeBucket (s.allocs (ptr_hash p)) p).2 := by
          rw [hstate]
          simp [hi]
        rw [hall, hi]
        exact removeBucket_wf (hWF _) hp
      · rw [hother i hi]
        exact hWF i
    · by_cases hi : i = ptr_hash p
      · rw [hi, haddr]
        exact (hND _).erase p
      · rw [addrsAt_eq, hother i hi]
        exact hND i
  · rw [tracked_iff, ← addrsAt_eq, haddr]
    exact (hND (ptr_hash p)).not_mem_erase
  · intro q hq
    by_cases hqh : ptr_hash q = ptr_hash p
    · rw [tracked_iff, tracked_iff, ← addrsAt_eq, ← addrsAt_eq, hqh, haddr]
      rw [(hND (ptr_hash p)).mem_erase_iff]
      simp [hq, addrsAt_eq]
    · rw [tracked_iff, tracked_iff, hother _ hqh]
  · intro q hq hq0
    by_cases hqh : ptr_hash q = ptr_hash p
    · rw [lookupRecord_eq_bucketFind, lookupRecord_eq_bucketFind, hqh]
      have : (alloc_remove s p).2.allocs (ptr_hash p) = (removeBucket (s.allocs (ptr_hash p)) p).2 := by
        rw [hstate]
        simp
      rw [this]
      exact removeBucket_find_ne hq0 hq
    · rw [lookupRecord_eq_bucketFind, lookupRecord_eq_bucketFind, hother _ hqh]

theorem alloc_add_spec {s : MState} {a : MemAlloc} (hInv : Inv s) (ha : a.ptr ≠ 0)
    (hf : ¬ tracked s a.ptr) :
    ∃ s1, alloc_add s a true = .ok s1 ∧
      s1.num_allocs = addOne s.num_allocs ∧
      addrsAt s1 (ptr_hash a.ptr) = addrsAt s (ptr_hash a.ptr) ++ [a.ptr] ∧
      (∀ i, i ≠ ptr_hash a.ptr → s1.allocs i = s.allocs i) ∧
      Inv s1 ∧
      tracked s1 a.ptr ∧
      lookupRecord s1 a.ptr = some a ∧
      (∀ q, q ≠ a.ptr → (tracked s1 q ↔ tracked s q)) ∧
      (∀ q, q ≠ a.ptr → q ≠ 0 → lookupRecord s1 q = lookupRecord s q) := by
  obtain ⟨hWF, hND, hinit, hnum⟩ := hInv
  have hEns : ensureInit s = s := ensureInit_of_initialized hinit
  have hfb : a.ptr ∉ bucketAddrs (s.allocs (ptr_hash a.ptr)) := hf
  by_cases hb0 : (s.allocs (ptr_hash a.ptr)).alloc.ptr = 0
  · -- the inline slot is empty (and, by well-formedness, so is the chain)
    have hnil : (s.allocs (ptr_hash a.ptr)).next = [] := (hWF _).2 hb0
    have holdaddr : bucketAddrs (s.allocs (ptr_hash a.ptr)) = [] := by
      unfold bucketAddrs
      rw [if_pos hb0, hnil]
      rfl
    have hstate : alloc_add s a true =
        .ok ⟨fun i => if i = ptr_hash a.ptr then ⟨a, (s.allocs (ptr_hash a.ptr)).next⟩
             else s.allocs i, true, addOne s.num_allocs⟩ := by
      simp [alloc_add, hEns, hb0]
    have haddr1 : addrsAt
        (⟨fun i => if i = ptr_hash a.ptr then ⟨a, (s.allocs (ptr_hash a.ptr)).next⟩
          else s.allocs i, true, addOne s.num_allocs⟩ : MState) (ptr_hash a.ptr) = [a.ptr] := by
      simp [addrsAt_eq, bucketAddrs, ha, hnil]
    refine ⟨_, hstate, rfl, ?_, fun i hi => by simp [hi], ?_, ?_, ?_, ?_, ?_⟩
    · rw [haddr1, addrsAt_eq, holdaddr]
      rfl
    · refine ⟨fun i => ?_, fun i => ?_, rfl, addOne_lt _⟩
      · by_cases hi : i = ptr_hash a.ptr
        · constructor
          · intro q hq
            rw [hi] at hq ⊢
            rw [← addrsAt_eq, haddr1] at hq
            simp only [List.mem_singleton] at hq
            subst hq
            exact ⟨ha, rfl⟩
          · intro _
            simp [hi, hnil]
        · constructor
          · intro q hq
            simp only [if_neg hi] at hq
            exact (hWF i).1 q hq
          · intro h0
            simp only [if_neg hi] at h0 ⊢
            exact (hWF i).2 h0
      · by_cases hi : i = ptr_hash a.ptr
        · rw [hi, haddr1]
          simp
        · rw [addrsAt_eq]
          simp only [if_neg hi]
          exact hND i
    · rw [tracked_iff, ← addrsAt_eq, haddr1]
      simp
    · simp [lookupRecord, ha]
    · intro q hq
      by_cases hqh : ptr_hash q = ptr_hash a.ptr
      · rw [tracked_iff, tracked_iff, ← addrsAt_eq, ← addrsAt_eq, hqh, haddr1, addrsAt_eq,
          holdaddr]
        simp [hq]
      · rw [tracked_iff, tracked_iff]
        simp [hqh]
    · intro q hq hq0
      by_cases hqh : ptr_hash q = ptr_hash a.ptr
      · rw [lookupRecord_eq_bucketFind, lookupRecord_eq_bucketFind, hqh]
        have h1 : a.ptr ≠ q := fun hh => hq hh.symm
        have h2 : (s.allocs (ptr_hash a.ptr)).alloc.ptr ≠ q := by
          rw [hb0]
          exact Ne.symm hq0
        simp [bucketFind, h1, h2, hnil]
      · rw [lookupRecord_eq_bucketFind, lookupRecord_eq_bucketFind]
        simp [hqh]
  · -- the inline slot is occupied: the record goes to the end of the chain
    have hbneq : (s.allocs (ptr_hash a.ptr)).alloc.ptr ≠ a.ptr := by
      intro hh
      exact hfb (mem_bucketAddrs.mpr (Or.inl ⟨hb0, hh.symm⟩))
    have hchainne : a.ptr ∉ (s.allocs (ptr_hash a.ptr)).next.map (fun x => x.ptr) := by
      intro hm
      exact hfb (mem_bucketAddrs.mpr (Or.inr hm))
    have hstate : alloc_add s a true =
        .ok ⟨fun i => if i = ptr_hash a.ptr then
              ⟨(s.allocs (ptr_hash a.ptr)).alloc, (s.allocs (ptr_hash a.ptr)).next ++ [a]⟩
             else s.allocs i, true, addOne s.num_allocs⟩ := by
      simp [alloc_add, hEns, hb0]
    have haddr1 : addrsAt
        (⟨fun i => if i = ptr_hash a.ptr then
            ⟨(s.allocs (ptr_hash a.ptr)).alloc, (s.allocs (ptr_hash a.ptr)).next ++ [a]⟩
          else s.allocs i, true, addOne s.num_allocs⟩ : MState) (ptr_hash a.ptr) =
        bucketAddrs (s.allocs (ptr_hash a.ptr)) ++ [a.ptr] := by
      simp only [addrsAt_eq, if_pos rfl, bucketAddrs, List.map_append, List.append_assoc]
      simp
    refine ⟨_, hstate, rfl, ?_, fun i hi => by simp [hi], ?_, ?_, ?_, ?_, ?_⟩
    · rw [haddr1, addrsAt_eq]
    · refine ⟨fun i => ?_, fun i => ?_, rfl, addOne_lt _⟩
      · by_cases hi : i = ptr_hash a.ptr
        · constructor
          · intro q hq
            rw [hi] at hq ⊢
            rw [← addrsAt_eq, haddr1] at hq
            rcases List.mem_append.mp hq with h | h
            · exact (hWF _).1 q h
            · simp only [List.mem_singleton] at h
              subst h
              exact ⟨ha, rfl⟩
          · intro h0
            rw [hi] at h0
            simp at h0
            exact absurd h0 hb0
        · constructor
          · intro q hq
            simp only [if_neg hi] at hq
            exact (hWF i).1 q hq
          · intro h0
            simp only [if_neg hi] at h0 ⊢
            exact (hWF i).2 h0
      · by_cases hi : i = ptr_hash a.ptr
        · rw [hi, haddr1]
          simp [List.nodup_append]
          refine ⟨hND _, fun hmem => hfb ?_⟩
          exact hmem
        · rw [addrsAt_eq]
          simp only [if_neg hi]
          exact hND i
    · rw [tracked_iff, ← addrsAt_eq, haddr1]
      simp
    · rw [lookupRecord_eq_bucketFind]
      have h1 : (s.allocs (ptr_hash a.ptr)).next.find? (fun x => x.ptr == a.ptr) = none := by
        rw [List.find?_eq_none]
        intro x hx
        simp only [beq_iff_eq]
        intro hh
        exact hchainne (List.mem_map.mpr ⟨x, hx, hh⟩)
      simp [bucketFind, hbneq, List.find?_append, h1, List.find?]
    · intro q hq
      by_cases hqh : ptr_hash q = ptr_hash a.ptr
      · rw [tracked_iff, tracked_iff, ← addrsAt_eq, ← addrsAt_eq, hqh, haddr1, addrsAt_eq]
        simp [hq]
      · rw [tracked_iff, tracked_iff]
        simp [hqh]
    · intro q hq hq0
      by_cases hqh : ptr_hash q = ptr_hash a.ptr
      · rw [lookupRecord_eq_bucketFind, lookupRecord_eq_bucketFind, hqh]
        have hne : (a.ptr == q) = false := by
          simp only [beq_eq_false_iff_ne]
          exact fun hh => hq hh.symm
        have h2 : [a].find? (fun x => x.ptr == q) = none := by
          simp [List.find?, hne]
        by_cases hbq : (s.allocs (ptr_hash a.ptr)).alloc.ptr = q
        · simp [bucketFind, hbq]
        · simp [bucketFind, hbq, List.find?_append, h2]
      · rw [lookupRecord_eq_bucketFind, lookupRecord_eq_bucketFind]
        simp [hqh]

theorem not_tracked_zero {s : MState} (hInv : Inv s) : ¬ tracked s 0 := by
  intro ht
  exact ((hInv.1 (ptr_hash 0)).1 0 ht).1 rfl

theorem alloc_remove_zero {s : MState} (hInv : Inv s) :
    (∀ i, (alloc_remove s 0).2.allocs i = s.allocs i) ∧ Inv (alloc_remove s 0).2 := by
  obtain ⟨hWF, hND, hinit, hnum⟩ := hInv
  have hEns : ensureInit s = s := ensureInit_of_initialized hinit
  by_cases hb : (s.allocs (ptr_hash 0)).alloc.ptr = 0
  · have hnil : (s.allocs (ptr_hash 0)).next = [] := (hWF _).2 hb
    have halloceq : ({ (s.allocs (ptr_hash 0)).alloc with ptr := 0 } : MemAlloc) =
        (s.allocs (ptr_hash 0)).alloc := by
      cases hx : (s.allocs (ptr_hash 0)).alloc with
      | mk pp ss ll ff fl =>
        rw [hx] at hb
        simp only [MemAlloc.mk.injEq] at hb
        simp [hb]
    have hrb : removeBucket (s.allocs (ptr_hash 0)) 0 = (true, s.allocs (ptr_hash 0)) := by
      simp only [removeBucket, if_pos hb, hnil]
      rw [halloceq, ← hnil]
    have hstate : alloc_remove s 0 =
        (true, ⟨fun i => if i = ptr_hash 0 then s.allocs (ptr_hash 0) else s.allocs i,
          true, subOne s.num_allocs⟩) := by
      simp [alloc_remove, hEns, hrb]
    have hall : ∀ i, (alloc_remove s 0).2.allocs i = s.allocs i := by
      intro i
      rw [hstate]
      by_cases hi : i = ptr_hash 0
      · simp [hi]
      · simp [hi]
    refine ⟨hall, fun i => ?_, fun i => ?_, by rw [hstate], by rw [hstate]; exact subOne_lt _⟩
    · rw [hall i]
      exact hWF i
    · rw [addrsAt_eq, hall i]
      exact hND i
  · have hcm : (0 : Nat) ∉ (s.allocs (ptr_hash 0)).next.map (fun a => a.ptr) := by
      intro hm
      rcases List.mem_map.mp hm with ⟨x, hx, hx0⟩
      have : x.ptr ∈ bucketAddrs (s.allocs (ptr_hash 0)) :=
        mem_bucketAddrs.mpr (Or.inr (List.mem_map.mpr ⟨x, hx, rfl⟩))
      exact ((hWF _).1 x.ptr this).1 hx0
    have hrb : removeBucket (s.allocs (ptr_hash 0)) 0 = (false, s.allocs (ptr_hash 0)) := by
      simp [removeBucket, hb, removeChain_not_found hcm]
    have hstate : alloc_remove s 0 = (false, s) := by
      simp [alloc_remove, hEns, hrb]
    rw [hstate]
    exact ⟨fun i => rfl, hWF, hND, hinit, hnum⟩

theorem stepChecked_inv {s s1 : MState} {e : Ev} (hInv : Inv s)
    (h : stepChecked s e = some s1) : Inv s1 := by
  cases e with
  | mallocE n ret line func file =>
    simp only [stepChecked] at h
    by_cases hc : ret ≠ 0 ∧ ¬ tracked s ret
    · rw [if_pos hc] at h
      obtain ⟨s2, hadd, _, _, _, hInv2, _⟩ :=
        alloc_add_spec (a := ⟨ret, n, line, func, file⟩) hInv hc.1 hc.2
      simp only [memdebug_malloc] at h
      rw [if_neg hc.1, hadd] at h
      simp only [Option.some.injEq] at h
      exact h ▸ hInv2
    · rw [if_neg hc] at h
      exact absurd h (by simp)
  | reallocE p n ret line func file =>
    simp only [stepChecked] at h
    by_cases hc : (p = 0 ∨ tracked s p) ∧ ret ≠ 0 ∧ ¬ tracked (alloc_remove s p).2 ret
    · rw [if_pos hc] at h
      obtain ⟨hcp, hcr, hcf⟩ := hc
      by_cases hp0 : p = 0
      · subst hp0
        obtain ⟨hall, hInvR⟩ := alloc_remove_zero hInv
        obtain ⟨s2, hadd, _, _, _, hInv2, _⟩ :=
          alloc_add_spec (a := ⟨ret, n, line, func, file⟩) hInvR hcr hcf
        have hguard : ¬((0 : Nat) ≠ 0 ∧ (alloc_remove s 0).1 = false) := by simp
        simp only [memdebug_realloc] at h
        rw [if_neg hguard, if_neg hcr, hadd] at h
        simp only [Option.some.injEq] at h
        exact h ▸ hInv2
      · have hpt : tracked s p := by
          rcases hcp with h0 | ht
          · exact absurd h0 hp0
          · exact ht
        obtain ⟨hfound, _, _, _, hInvR, _, _, _⟩ := alloc_remove_spec hInv hp0 hpt
        obtain ⟨s2, hadd, _, _, _, hInv2, _⟩ :=
          alloc_add_spec (a := ⟨ret, n, line, func, file⟩) hInvR hcr hcf
        have hguard : ¬(p ≠ 0 ∧ (alloc_remove s p).1 = false) := by
          intro hx
          rw [hfound] at hx
          cases hx.2
        simp only [memdebug_realloc] at h
        rw [if_neg hguard, if_neg hcr, hadd] at h
        simp only [Option.some.injEq] at h
        exact h ▸ hInv2
    · rw [if_neg hc] at h
      exact absurd h (by simp)
  | freeE p line func file =>
    simp only [stepChecked] at h
    by_cases hc : p = 0 ∨ tracked s p
    · rw [if_pos hc] at h
      by_cases hp0 : p = 0
      · subst hp0
        obtain ⟨hall, hInvR⟩ := alloc_remove_zero hInv
        have hguard : ¬((0 : Nat) ≠ 0 ∧ (alloc_remove s 0).1 = false) := by simp
        simp only [memdebug_free] at h
        rw [if_neg hguard] at h
        simp only [Option.some.injEq] at h
        exact h ▸ hInvR
      · have hpt : tracked s p := by
          rcases hc with h0 | ht
          · exact absurd h0 hp0
          · exact ht
        obtain ⟨hfound, _, _, _, hInvR, _, _, _⟩ := alloc_remove_spec hInv hp0 hpt
        have hguard : ¬(p ≠ 0 ∧ (alloc_remove s p).1 = false) := by
          intro hx
          rw [hfound] at hx
          cases hx.2
        simp only [memdebug_free] at h
        rw [if_neg hguard] at h
        simp only [Option.some.injEq] at h
        exact h ▸ hInvR
    · rw [if_neg hc] at h
      exact absurd h (by simp)

theorem runChecked_inv : ∀ (evs : List Ev) (s s1 : MState), Inv s →
    runChecked evs s = some s1 → Inv s1 := by
  intro evs
  induction evs with
  | nil =>
    intro s s1 hInv h
    simp only [runChecked, Option.some.injEq] at h
    exact h ▸ hInv
  | cons e rest ih =>
    intro s s1 hInv h
    simp only [runChecked] at h
    cases hstep : stepChecked s e with
    | none => rw [hstep] at h; exact absurd h (by simp)
    | some s2 =>
      rw [hstep] at h
      exact ih s2 s1 (stepChecked_inv hInv hstep) h

/-- The lazy initialisation is transparent to the first step: every operation
initialises the bucket array before touching it, and the pristine static
array is already all-null. -/
theorem stepChecked_initState (e : Ev) :
    stepChecked initState e = stepChecked (ensureInit initState) e := by
  cases e <;> rfl

end Hashmap

/-- C8: in every state reachable by a misuse-free allocate/resize/release
trace from the pristine state (with the real allocator never handing out a
currently-live address), no address is recorded twice in a bucket and no
address appears in two different buckets. -/
theorem c8_unique_addresses (evs : List Hashmap.Ev) (s1 : Hashmap.MState)
    (h : Hashmap.runChecked evs Hashmap.initState = some s1) :
    (∀ i, (Hashmap.addrsAt s1 i).Nodup) ∧
    (∀ q i j, q ∈ Hashmap.addrsAt s1 i → q ∈ Hashmap.addrsAt s1 j → i = j) := by
  cases evs with
  | nil =>
    simp only [Hashmap.runChecked, Option.some.injEq] at h
    constructor
    · intro i
      rw [← h]
      simp [Hashmap.addrsAt_eq, Hashmap.initState, Hashmap.bucketAddrs, Hashmap.emptyBucket,
        Hashmap.emptyAlloc]
    · intro q i j hi
      rw [← h] at hi
      simp [Hashmap.addrsAt_eq, Hashmap.initState, Hashmap.bucketAddrs, Hashmap.emptyBucket,
        Hashmap.emptyAlloc] at hi
  | cons e rest =>
    have hswap : Hashmap.runChecked (e :: rest) Hashmap.initState =
        Hashmap.runChecked (e :: rest) (Hashmap.ensureInit Hashmap.initState) := by
      simp only [Hashmap.runChecked, Hashmap.stepChecked_initState e]
    rw [hswap] at h
    have hInv : Hashmap.Inv s1 :=
      Hashmap.runChecked_inv _ _ _ Hashmap.Inv_ensureInit_initState h
    refine ⟨hInv.2.1, fun q i j hi hj => ?_⟩
    exact (((hInv.1 i).1 q hi).2).symm.trans ((hInv.1 j).1 q hj).2

/-- Witness for C8: the trace that allocates 5 bytes at address 8 reaches a
state whose bucket 257 (the hash of address 8) records no duplicate. -/
theorem c8_unique_addresses_witness :
    (Hashmap.addrsAt
      ((Hashmap.runChecked [.mallocE 5 8 1 "f" "t.c"] Hashmap.initState).getD
        Hashmap.initState) 257).Nodup := by
  have h : Hashmap.runChecked [.mallocE 5 8 1 "f" "t.c"] Hashmap.initState =
      some ((Hashmap.runChecked [.mallocE 5 8 1 "f" "t.c"] Hashmap.initState).getD
        Hashmap.initState) := rfl
  exact (c8_unique_addresses _ _ h).1 257

namespace Hashmap

/-- On a well-formed bucket the dump loop prints nothing when the inline slot
is empty, and the inline slot followed by the whole chain otherwise. -/
theorem bucketDump_eq {i : Nat} {b : Bucket} (hWFb : bucketWF i b) :
    bucketDump b = if b.alloc.ptr = 0 then [] else b.alloc :: b.next := by
  by_cases hb0 : b.alloc.ptr = 0
  · have hnil : b.next = [] := hWFb.2 hb0
    simp [bucketDump, hnil, List.takeWhile, hb0]
  · have hall : ∀ a ∈ b.alloc :: b.next, (a.ptr != 0) = true := by
      intro a ha
      rcases List.mem_cons.mp ha with h | h
      · rw [h]
        simp [bne_iff_ne, hb0]
      · have : a.ptr ∈ bucketAddrs b :=
          mem_bucketAddrs.mpr (Or.inr (List.mem_map.mpr ⟨a, h, rfl⟩))
        simp [bne_iff_ne, (hWFb.1 a.ptr this).1]
    simp [bucketDump, if_neg hb0, List.takeWhile_eq_self_iff.mpr hall]

/-- A record present in any bucket of a well-formed state is a tracked,
non-null address. -/
theorem tracked_of_mem_bucket {s : MState} (hWF : ∀ i, bucketWF i (s.allocs i))
    {q i : Nat} (hq : q ∈ bucketAddrs (s.allocs i)) : q ≠ 0 ∧ tracked s q := by
  obtain ⟨h0, hhash⟩ := (hWF i).1 q hq
  refine ⟨h0, ?_⟩
  rw [tracked_iff, hhash]
  exact hq

/-- Where `print_heap` runs with the lock free (the allocate path reaches
`OOM` before taking the mutex), its dump is complete: on a well-formed
state every tracked address appears in it, and every printed record is a
tracked non-null address. -/
theorem print_heap_complete {s : MState} (hInv : Inv s) (q : Nat) :
    (tracked s q → ∃ r ∈ print_heap s, r.ptr = q) ∧
    (∀ r ∈ print_heap s, r.ptr ≠ 0 ∧ tracked s r.ptr) := by
  obtain ⟨hWF, hND, hinit, hnum⟩ := hInv
  have hEns : ensureInit s = s := ensureInit_of_initialized hinit
  have hph : print_heap s =
      (List.range MAP_BUF_SIZE).flatMap (fun i => bucketDump (s.allocs i)) := by
    simp [print_heap, hEns]
  constructor
  · intro ht
    rw [tracked_iff] at ht
    rcases mem_bucketAddrs.mp ht with ⟨hb0, hqe⟩ | hmem
    · refine ⟨(s.allocs (ptr_hash q)).alloc, ?_, hqe.symm⟩
      rw [hph]
      refine List.mem_flatMap.mpr ⟨ptr_hash q, List.mem_range.mpr (ptr_hash_lt q), ?_⟩
      rw [bucketDump_eq (hWF (ptr_hash q)), if_neg hb0]
      exact List.mem_cons_self _ _
    · rcases List.mem_map.mp hmem with ⟨x, hx, hxq⟩
      have hb0 : (s.allocs (ptr_hash q)).alloc.ptr ≠ 0 := by
        intro h0
        have hnil := (hWF (ptr_hash q)).2 h0
        rw [hnil] at hx
        exact absurd hx (List.not_mem_nil x)
      refine ⟨x, ?_, hxq⟩
      rw [hph]
      refine List.mem_flatMap.mpr ⟨ptr_hash q, List.mem_range.mpr (ptr_hash_lt q), ?_⟩
      rw [bucketDump_eq (hWF (ptr_hash q)), if_neg hb0]
      exact List.mem_cons_of_mem _ hx
  · intro r hr
    rw [hph] at hr
    rcases List.mem_flatMap.mp hr with ⟨i, _, hrb⟩
    rw [bucketDump_eq (hWF i)] at hrb
    by_cases hb0 : (s.allocs i).alloc.ptr = 0
    · rw [if_pos hb0] at hrb
      exact absurd hrb (List.not_mem_nil r)
    · rw [if_neg hb0] at hrb
      rcases List.mem_cons.mp hrb with h | h
      · subst h
        exact tracked_of_mem_bucket hWF (mem_bucketAddrs.mpr (Or.inl ⟨hb0, rfl⟩))
      · exact tracked_of_mem_bucket hWF
          (mem_bucketAddrs.mpr (Or.inr (List.mem_map.mpr ⟨r, h, rfl⟩)))

end Hashmap

/-- C3: releasing or resizing a non-null address with no live record in the
registry raises the invalid-pointer fault: both wrappers return the
`mempanic` diagnostic naming the address and call site, the process exits
with `MEMPANIC_EXIT_STATUS`, and that status differs from the out-of-memory
status.  Neither operation returns a state. -/
theorem c3_invalid_pointer_fault (s : Hashmap.MState) (p n line ret : Nat)
    (func file : String) (ok : Bool)
    (hinit : s.memallocs_initialized = true) (hp : p ≠ 0)
    (habs : ∀ i, p ∉ Hashmap.addrsAt s i) :
    Hashmap.memdebug_free s p line func file =
      .error (.mempanic p "Tried to free() an invalid pointer." line func file) ∧
    Hashmap.memdebug_realloc s p n line func file ret ok =
      .error (.mempanic p "Tried to realloc() an invalid pointer." line func file) ∧
    Hashmap.exitStatus
        (.mempanic p "Tried to free() an invalid pointer." line func file) =
      some MEMPANIC_EXIT_STATUS ∧
    MEMPANIC_EXIT_STATUS ≠ OOM_EXIT_STATUS := by
  have hnt : ¬ Hashmap.tracked s p := habs (Hashmap.ptr_hash p)
  have hrm : Hashmap.alloc_remove s p = (false, s) :=
    Hashmap.alloc_remove_not_tracked hinit hp hnt
  refine ⟨?_, ?_, rfl, by norm_num [MEMPANIC_EXIT_STATUS, OOM_EXIT_STATUS]⟩
  · simp [Hashmap.memdebug_free, hrm, hp]
  · simp [Hashmap.memdebug_realloc, hrm, hp]

/-- Witness for C3: on the initialised empty registry, freeing or resizing
the untracked address 1 panics with the invalid-pointer diagnostic and exit
status 10, distinct from the out-of-memory status 11. -/
theorem c3_invalid_pointer_fault_witness :
    Hashmap.memdebug_free (Hashmap.ensureInit Hashmap.initState) 1 3 "f" "t.c" =
      .error (.mempanic 1 "Tried to free() an invalid pointer." 3 "f" "t.c") ∧
    Hashmap.memdebug_realloc (Hashmap.ensureInit Hashmap.initState) 1 5 3 "f" "t.c" 9 true =
      .error (.mempanic 1 "Tried to realloc() an invalid pointer." 3 "f" "t.c") ∧
    Hashmap.exitStatus (.mempanic 1 "Tried to free() an invalid pointer." 3 "f" "t.c") =
      some MEMPANIC_EXIT_STATUS ∧
    MEMPANIC_EXIT_STATUS ≠ OOM_EXIT_STATUS := by
  have habs : ∀ i, 1 ∉ Hashmap.addrsAt (Hashmap.ensureInit Hashmap.initState) i := by
    intro i
    simp [Hashmap.addrsAt_eq, Hashmap.ensureInit, Hashmap.initState, Hashmap.bucketAddrs,
      Hashmap.emptyBucket, Hashmap.emptyAlloc]
  exact c3_invalid_pointer_fault (Hashmap.ensureInit Hashmap.initState) 1 5 3 9 "f" "t.c"
    true rfl (by norm_num) habs

/-- C4: the out-of-memory handling diverges between the two entry points.
`memdebug_malloc` raises the clean fault the claim describes: the
diagnostic with the full heap dump (and, on a well-formed state, that dump
lists exactly the live records) and termination with `OOM_EXIT_STATUS`,
distinct from the invalid-pointer status.  `memdebug_realloc`, however,
reaches `OOM` while already holding `alloc_mutex`; `print_heap` then
re-acquires the non-recursive mutex, so after the out-of-memory header the
process deadlocks: no heap dump is printed and the out-of-memory exit
status is never reached. -/
theorem c4_oom_fault_divergence (s : Hashmap.MState) (n line : Nat)
    (func file : String) (ok : Bool) :
    Hashmap.memdebug_malloc s n line func file 0 ok =
      .error (.oom line func file n (Hashmap.print_heap s)) ∧
    Hashmap.exitStatus (.oom line func file n (Hashmap.print_heap s)) =
      some OOM_EXIT_STATUS ∧
    OOM_EXIT_STATUS ≠ MEMPANIC_EXIT_STATUS ∧
    (Hashmap.Inv s → ∀ q,
      (Hashmap.tracked s q → ∃ r ∈ Hashmap.print_heap s, r.ptr = q) ∧
      (∀ r ∈ Hashmap.print_heap s, r.ptr ≠ 0 ∧ Hashmap.tracked s r.ptr)) ∧
    Hashmap.memdebug_realloc s 0 n line func file 0 ok =
      .error (.oomDeadlock line func file n) ∧
    Hashmap.exitStatus (.oomDeadlock line func file n) = none ∧
    Hashmap.exitStatus (.oomDeadlock line func file n) ≠ some OOM_EXIT_STATUS := by
  refine ⟨by simp [Hashmap.memdebug_malloc], rfl,
    by norm_num [MEMPANIC_EXIT_STATUS, OOM_EXIT_STATUS],
    fun hInv q => Hashmap.print_heap_complete hInv q, ?_, rfl, by simp [Hashmap.exitStatus]⟩
  simp [Hashmap.memdebug_realloc]

/-- Witness for C4: on the initialised empty registry, a null allocator
result for `malloc(7)` yields the out-of-memory fault with the heap dump
and exit status 11 ≠ 10 (dump characterisation instantiated at address 5),
while a null result for `realloc(NULL, 7)` ends in the mutex deadlock with
no exit status. -/
theorem c4_oom_fault_divergence_witness :
    Hashmap.memdebug_malloc (Hashmap.ensureInit Hashmap.initState) 7 2 "f" "t.c" 0 true =
      .error (.oom 2 "f" "t.c" 7
        (Hashmap.print_heap (Hashmap.ensureInit Hashmap.initState))) ∧
    Hashmap.exitStatus (.oom 2 "f" "t.c" 7
        (Hashmap.print_heap (Hashmap.ensureInit Hashmap.initState))) =
      some OOM_EXIT_STATUS ∧
    OOM_EXIT_STATUS ≠ MEMPANIC_EXIT_STATUS ∧
    ((Hashmap.tracked (Hashmap.ensureInit Hashmap.initState) 5 →
        ∃ r ∈ Hashmap.print_heap (Hashmap.ensureInit Hashmap.initState), r.ptr = 5) ∧
      (∀ r ∈ Hashmap.print_heap (Hashmap.ensureInit Hashmap.initState),
        r.ptr ≠ 0 ∧ Hashmap.tracked (Hashmap.ensureInit Hashmap.initState) r.ptr)) ∧
    Hashmap.memdebug_realloc (Hashmap.ensureInit Hashmap.initState) 0 7 2 "f" "t.c" 0 true =
      .error (.oomDeadlock 2 "f" "t.c" 7) ∧
    Hashmap.exitStatus (.oomDeadlock 2 "f" "t.c" 7) = none ∧
    Hashmap.exitStatus (.oomDeadlock 2 "f" "t.c" 7) ≠ some OOM_EXIT_STATUS := by
  obtain ⟨hA, hB, hC, hD, hE, hF, hG⟩ :=
    c4_oom_fault_divergence (Hashmap.ensureInit Hashmap.initState) 7 2 "f" "t.c" true
  exact ⟨hA, hB, hC, hD Hashmap.Inv_ensureInit_initState 5, hE, hF, hG⟩

namespace Hashmap

/-- Bucket-level lookup misses every address absent from the bucket. -/
theorem bucketFind_none {b : Bucket} {q : Nat} (h : q ∉ bucketAddrs b)
    (hq0 : q ≠ 0) : bucketFind b q = none := by
  have hb : b.alloc.ptr ≠ q := by
    intro hh
    apply h
    exact mem_bucketAddrs.mpr (Or.inl ⟨by rw [hh]; exact hq0, hh.symm⟩)
  unfold bucketFind
  rw [if_neg hb, List.find?_eq_none]
  intro x hx
  simp only [beq_iff_eq]
  intro hxq
  exact h (mem_bucketAddrs.mpr (Or.inr (List.mem_map.mpr ⟨x, hx, hxq⟩)))

end Hashmap

/-- C6: resizing a live tracked address with the real resize returning a
non-null address that is not otherwise live keeps `live_count` unchanged,
makes the returned address resolve to a live record with the new size, and
(when the returned address differs from the old one) the old address no
longer resolves. -/
theorem c6_realloc_tracked (s : Hashmap.MState) (p n2 line ret : Nat)
    (func file : String) (hInv : Hashmap.Inv s) (hp : p ≠ 0)
    (ht : Hashmap.tracked s p) (hret : ret ≠ 0)
    (hfresh : ¬ Hashmap.tracked (Hashmap.alloc_remove s p).2 ret) :
    (Hashmap.memdebug_realloc s p n2 line func file ret true).map
        (fun r => (r.1, Hashmap.live_count r.2, Hashmap.lookupRecord r.2 ret)) =
      .ok (ret, Hashmap.live_count s, some ⟨ret, n2, line, func, file⟩) ∧
    (ret ≠ p →
      (Hashmap.memdebug_realloc s p n2 line func file ret true).map
          (fun r => (decide (Hashmap.tracked r.2 p), Hashmap.lookupRecord r.2 p)) =
        .ok (false, none)) := by
  obtain ⟨hfound, hnumr, haddrr, hothr, hInvR, hntr, htrr, hlkr⟩ :=
    Hashmap.alloc_remove_spec hInv hp ht
  obtain ⟨s2, hadd, hnum2, haddr2, hoth2, hInv2, htr2, hlk2, htrpres, hlkpres⟩ :=
    Hashmap.alloc_add_spec (a := ⟨ret, n2, line, func, file⟩) hInvR hret hfresh
  have hguard : ¬(p ≠ 0 ∧ (Hashmap.alloc_remove s p).1 = false) := by
    intro hx
    rw [hfound] at hx
    cases hx.2
  have hstate : Hashmap.memdebug_realloc s p n2 line func file ret true = .ok (ret, s2) := by
    simp only [Hashmap.memdebug_realloc]
    rw [if_neg hguard, if_neg hret, hadd]
  have hcount : Hashmap.live_count s2 = Hashmap.live_count s := by
    show s2.num_allocs = s.num_allocs
    rw [hnum2, hnumr, Hashmap.addOne_subOne hInv.2.2.2]
  constructor
  · rw [hstate]
    simp only [Except.map]
    rw [hcount, hlk2]
  · intro hne
    have hpne : p ≠ (⟨ret, n2, line, func, file⟩ : Hashmap.MemAlloc).ptr :=
      fun hh => hne (hh.symm)
    have hnt2 : ¬ Hashmap.tracked s2 p := by
      rw [htrpres p hpne]
      exact hntr
    have hlknone : Hashmap.lookupRecord s2 p = none := by
      rw [Hashmap.lookupRecord_eq_bucketFind]
      exact Hashmap.bucketFind_none hnt2 hp
    rw [hstate]
    simp only [Except.map]
    rw [hlknone]
    simp [hnt2]

/-- C7 (amended to non-null addresses): for every initialised registry state
and non-null address, `alloc_remove` returns `true` exactly when a record
with that address is in its hash bucket, leaves the state unchanged when it
returns `false`, decrements `num_allocs` and touches only the hash bucket
when it returns `true`; a matching inline slot is replaced by the chain head
or cleared, and a matching chain node is unlinked. -/
theorem c7_remove_spec (s : Hashmap.MState) (p : Nat) (hp : p ≠ 0)
    (hinit : s.memallocs_initialized = true) :
    ((Hashmap.alloc_remove s p).1 = true ↔ Hashmap.tracked s p) ∧
    (¬ Hashmap.tracked s p → Hashmap.alloc_remove s p = (false, s)) ∧
    (Hashmap.tracked s p →
      (Hashmap.alloc_remove s p).2.num_allocs = subOne s.num_allocs ∧
      (∀ i, i ≠ Hashmap.ptr_hash p →
        (Hashmap.alloc_remove s p).2.allocs i = s.allocs i) ∧
      (Hashmap.alloc_remove s p).2.allocs (Hashmap.ptr_hash p) =
        (Hashmap.removeBucket (s.allocs (Hashmap.ptr_hash p)) p).2) ∧
    (∀ b : Hashmap.Bucket,
      (b.alloc.ptr = p → b.next = [] →
        (Hashmap.removeBucket b p).2 = ⟨{ b.alloc with ptr := 0 }, []⟩) ∧
      (∀ c rest, b.alloc.ptr = p → b.next = c :: rest →
        (Hashmap.removeBucket b p).2 = ⟨c, rest⟩) ∧
      (b.alloc.ptr ≠ p → p ∈ b.next.map (fun a => a.ptr) →
        (Hashmap.removeBucket b p).2.alloc = b.alloc ∧
        ((Hashmap.removeBucket b p).2.next).map (fun a => a.ptr) =
          (b.next.map (fun a => a.ptr)).erase p)) := by
  have hEns : Hashmap.ensureInit s = s := Hashmap.ensureInit_of_initialized hinit
  refine ⟨?_, Hashmap.alloc_remove_not_tracked hinit hp, ?_, ?_⟩
  · have hEq : (Hashmap.alloc_remove s p).1 =
        (Hashmap.removeBucket (s.allocs (Hashmap.ptr_hash p)) p).1 := by
      by_cases hf : (Hashmap.removeBucket (s.allocs (Hashmap.ptr_hash p)) p).1 = true
      · simp [Hashmap.alloc_remove, hEns, hf]
      · simp [Hashmap.alloc_remove, hEns, hf]
    rw [hEq]
    exact Hashmap.removeBucket_found_iff hp
  · intro ht
    have hfound : (Hashmap.removeBucket (s.allocs (Hashmap.ptr_hash p)) p).1 = true :=
      (Hashmap.removeBucket_found_iff hp).mpr ht
    have hstate : Hashmap.alloc_remove s p =
        (true, ⟨fun i => if i = Hashmap.ptr_hash p then
            (Hashmap.removeBucket (s.allocs (Hashmap.ptr_hash p)) p).2
          else s.allocs i, true, subOne s.num_allocs⟩) := by
      simp [Hashmap.alloc_remove, hEns, hfound]
    refine ⟨by rw [hstate], fun i hi => by rw [hstate]; simp [hi], by rw [hstate]; simp⟩
  · intro b
    refine ⟨fun hb hn => by simp [Hashmap.removeBucket, hb, hn],
      fun c rest hb hn => by simp [Hashmap.removeBucket, hb, hn], fun hb hmem => ?_⟩
    constructor
    · simp [Hashmap.removeBucket, hb]
    · simp only [Hashmap.removeBucket, if_neg hb]
      exact Hashmap.removeChain_map_erase hmem

/-- Witness for C7: instantiating the amended removal contract on the
initialised empty registry at address 1, and the inline-clearing case on a
concrete one-record bucket. -/
theorem c7_remove_spec_witness :
    ((Hashmap.alloc_remove (Hashmap.ensureInit Hashmap.initState) 1).1 = true ↔
      Hashmap.tracked (Hashmap.ensureInit Hashmap.initState) 1) ∧
    (Hashmap.removeBucket ⟨⟨1, 4, 2, "f", "t.c"⟩, []⟩ 1).2 = ⟨⟨0, 4, 2, "f", "t.c"⟩, []⟩ := by
  obtain ⟨hA, hB, hC, hD⟩ :=
    c7_remove_spec (Hashmap.ensureInit Hashmap.initState) 1 (by norm_num) rfl
  exact ⟨hA, (hD ⟨⟨1, 4, 2, "f", "t.c"⟩, []⟩).1 rfl rfl⟩

namespace ArrayImpl

/-- The lookup loop returns the sentinel when no index at or beyond the scan
position (and below `num_allocs`) matches. -/
theorem alloc_find_index_go_not_found (s : ArrState) (p : Nat) :
    ∀ fuel i, i + fuel = s.num_allocs →
    (∀ j, i ≤ j → j < s.num_allocs → (s.allocs j).ptr ≠ p) →
    alloc_find_index_go s p fuel i = MEM_FAIL_TO_FIND := by
  intro fuel
  induction fuel with
  | zero => intro i _ _; rfl
  | succ m ih =>
    intro i hsum hnone
    have hi : i < s.num_allocs := by omega
    simp only [alloc_find_index_go, if_neg (hnone i (Nat.le_refl i) hi)]
    exact ih (i + 1) (by omega) (fun j hj hjn => hnone j (by omega) hjn)

/-- The lookup loop returns the first matching index. -/
theorem alloc_find_index_go_found (s : ArrState) (p : Nat) :
    ∀ fuel i k, i + fuel = s.num_allocs → i ≤ k → k < s.num_allocs →
    (s.allocs k).ptr = p → (∀ j, i ≤ j → j < k → (s.allocs j).ptr ≠ p) →
    alloc_find_index_go s p fuel i = k := by
  intro fuel
  induction fuel with
  | zero => intro i k hsum hik hk _ _; omega
  | succ m ih =>
    intro i k hsum hik hk hmatch hless
    by_cases hik2 : i = k
    · rw [hik2]
      simp [alloc_find_index_go, hmatch]
    · have hne : (s.allocs i).ptr ≠ p := hless i (Nat.le_refl i) (by omega)
      simp only [alloc_find_index_go, if_neg hne]
      exact ih (i + 1) k (by omega) (by omega) hk hmatch
        (fun j hj hjk => hless j (by omega) hjk)

/-- `alloc_find_index` returns the sentinel when the pointer occurs at no
index of the live prefix. -/
theorem alloc_find_index_not_found {s : ArrState} {p : Nat}
    (h : ∀ j, j < s.num_allocs → (s.allocs j).ptr ≠ p) :
    alloc_find_index s p = MEM_FAIL_TO_FIND :=
  alloc_find_index_go_not_found s p s.num_allocs 0 (by omega)
    (fun j _ hj => h j hj)

/-- `alloc_find_index` returns the smallest matching index of the live
prefix. -/
theorem alloc_find_index_least {s : ArrState} {p k : Nat}
    (hk : k < s.num_allocs) (hm : (s.allocs k).ptr = p)
    (hl : ∀ j, j < k → (s.allocs j).ptr ≠ p) :
    alloc_find_index s p = k :=
  alloc_find_index_go_found s p s.num_allocs 0 k (by omega) (Nat.zero_le k) hk hm
    (fun j _ hjk => hl j hjk)

end ArrayImpl

/-- C10: in the array implementation, lookup returns the smallest live index
whose record matches, signalling absence with the fixed sentinel 4294967295;
consequently, a state whose live record for an address sits first at index
4294967295 makes that lookup indistinguishable from absence, and both
`memdebug_free` and `memdebug_realloc` of that live address take the
invalid-pointer panic path. -/
theorem c10_sentinel_index_collision (s : ArrayImpl.ArrState) (p n line ret : Nat)
    (file : String) (hp : p ≠ 0)
    (hlt : ArrayImpl.MEM_FAIL_TO_FIND < s.num_allocs)
    (hrec : (s.allocs ArrayImpl.MEM_FAIL_TO_FIND).ptr = p)
    (hfirst : ∀ j, j < ArrayImpl.MEM_FAIL_TO_FIND → (s.allocs j).ptr ≠ p) :
    (∀ (s2 : ArrayImpl.ArrState) (q k : Nat), k < s2.num_allocs →
      (s2.allocs k).ptr = q → (∀ j, j < k → (s2.allocs j).ptr ≠ q) →
      ArrayImpl.alloc_find_index s2 q = k) ∧
    (∀ (s2 : ArrayImpl.ArrState) (q : Nat),
      (∀ j, j < s2.num_allocs → (s2.allocs j).ptr ≠ q) →
      ArrayImpl.alloc_find_index s2 q = ArrayImpl.MEM_FAIL_TO_FIND) ∧
    ArrayImpl.alloc_find_index s p = ArrayImpl.MEM_FAIL_TO_FIND ∧
    ArrayImpl.memdebug_free s p line file =
      .error (.mempanic p "Tried to free() an invalid pointer." line file) ∧
    ArrayImpl.memdebug_realloc s p n line file ret =
      .error (.mempanic p "Tried to realloc() an invalid pointer." line file) := by
  have hfind : ArrayImpl.alloc_find_index s p = ArrayImpl.MEM_FAIL_TO_FIND :=
    ArrayImpl.alloc_find_index_least hlt hrec hfirst
  refine ⟨fun s2 q k hk hm hl => ArrayImpl.alloc_find_index_least hk hm hl,
    fun s2 q h => ArrayImpl.alloc_find_index_not_found h, hfind, ?_, ?_⟩
  · simp [ArrayImpl.memdebug_free, hfind, hp]
  · simp [ArrayImpl.memdebug_realloc, hfind, hp]

/-- Witness for C10: a state whose 4294967296 records put address 7 exactly
at index 4294967295 (all earlier records hold address 1) makes the lookup of
7 return the sentinel and makes freeing or resizing the live address 7
panic as an invalid pointer. -/
theorem c10_sentinel_index_collision_witness :
    ArrayImpl.alloc_find_index
      ⟨fun j => if j = 4294967295 then ⟨7, 1, 1, "t.c"⟩ else ⟨1, 0, 0, ""⟩, 4294967296⟩ 7 =
      ArrayImpl.MEM_FAIL_TO_FIND ∧
    ArrayImpl.memdebug_free
      ⟨fun j => if j = 4294967295 then ⟨7, 1, 1, "t.c"⟩ else ⟨1, 0, 0, ""⟩, 4294967296⟩
      7 9 "t.c" =
      .error (.mempanic 7 "Tried to free() an invalid pointer." 9 "t.c") ∧
    ArrayImpl.memdebug_realloc
      ⟨fun j => if j = 4294967295 then ⟨7, 1, 1, "t.c"⟩ else ⟨1, 0, 0, ""⟩, 4294967296⟩
      7 20 9 "t.c" 11 =
      .error (.mempanic 7 "Tried to realloc() an invalid pointer." 9 "t.c") := by
  obtain ⟨_, _, hfind, hfree, hrealloc⟩ :=
    c10_sentinel_index_collision
      ⟨fun j => if j = 4294967295 then ⟨7, 1, 1, "t.c"⟩ else ⟨1, 0, 0, ""⟩, 4294967296⟩
      7 20 9 11 "t.c" (by norm_num)
      (by norm_num [ArrayImpl.MEM_FAIL_TO_FIND])
      (by norm_num [ArrayImpl.MEM_FAIL_TO_FIND])
      (by
        intro j hj
        norm_num [ArrayImpl.MEM_FAIL_TO_FIND] at hj
        simp [Nat.ne_of_lt hj])
  exact ⟨hfind, hfree, hrealloc⟩

/-- Witness for C6: on a registry tracking exactly address 8 (bucket 257),
resizing 8 to 10 bytes with the real resize returning address 42 keeps the
live count, makes 42 resolve to the fresh record, and 8 no longer
resolves. -/
theorem c6_realloc_tracked_witness :
    (Hashmap.memdebug_realloc
        ⟨fun i => if i = 257 then ⟨⟨8, 5, 1, "f", "t.c"⟩, []⟩ else Hashmap.emptyBucket,
          true, 1⟩ 8 10 4 "g" "u.c" 42 true).map
        (fun r => (r.1, Hashmap.live_count r.2, Hashmap.lookupRecord r.2 42)) =
      .ok (42, Hashmap.live_count
        (⟨fun i => if i = 257 then ⟨⟨8, 5, 1, "f", "t.c"⟩, []⟩ else Hashmap.emptyBucket,
          true, 1⟩ : Hashmap.MState), some ⟨42, 10, 4, "g", "u.c"⟩) ∧
    (Hashmap.memdebug_realloc
        ⟨fun i => if i = 257 then ⟨⟨8, 5, 1, "f", "t.c"⟩, []⟩ else Hashmap.emptyBucket,
          true, 1⟩ 8 10 4 "g" "u.c" 42 true).map
        (fun r => (decide (Hashmap.tracked r.2 8), Hashmap.lookupRecord r.2 8)) =
      .ok (false, none) := by
  have hInv : Hashmap.Inv
      ⟨fun i => if i = 257 then ⟨⟨8, 5, 1, "f", "t.c"⟩, []⟩ else Hashmap.emptyBucket,
        true, 1⟩ := by
    refine ⟨fun i => ?_, fun i => ?_, rfl, by norm_num [size_t_mod]⟩
    · by_cases hi : i = 257
      · subst hi
        constructor
        · intro q hq
          simp [Hashmap.bucketAddrs] at hq
          subst hq
          exact ⟨by norm_num, by decide⟩
        · intro h0
          simp at h0
      · constructor
        · intro q hq
          simp [Hashmap.bucketAddrs, hi, Hashmap.emptyBucket, Hashmap.emptyAlloc] at hq
        · intro _
          simp [hi, Hashmap.emptyBucket]
    · by_cases hi : i = 257
      · subst hi
        simp [Hashmap.addrsAt_eq, Hashmap.bucketAddrs]
      · simp [Hashmap.addrsAt_eq, Hashmap.bucketAddrs, hi, Hashmap.emptyBucket,
          Hashmap.emptyAlloc]
  obtain ⟨hA, hB⟩ := c6_realloc_tracked
    ⟨fun i => if i = 257 then ⟨⟨8, 5, 1, "f", "t.c"⟩, []⟩ else Hashmap.emptyBucket, true, 1⟩
    8 10 4 42 "g" "u.c" hInv (by norm_num) (by decide) (by norm_num) (by decide)
  exact ⟨hA, hB (by norm_num)⟩
